import Mathlib

/-!
Verification of the gd_sfx catalog-tree core (src/gui.rs) against its
natural-language specification.

The tree algorithms under scrutiny all live in src/gui.rs:
filter_sounds, remove_empty_category_nodes, stats_list::recursive,
library_list::recursive (partition + sort + render order) and
favourites_list::recursive.  The LibraryEntry enum itself is declared in
src/library.rs, which is not among the provided sources; its shape is
reconstructed from the data model of the specification and from the exhaustive
pattern matches in src/gui.rs.
-/

/-- Rust strings, modelled as their character sequences. -/
abbrev Str := List Char

/-- Rust char::to_ascii_lowercase: map an ASCII uppercase letter to lowercase,
leave every other character unchanged. -/
def lower_ascii_char (c : Char) : Char :=
  if 'A' ≤ c ∧ c ≤ 'Z' then Char.ofNat (c.toNat + 32) else c

/-- Rust str::to_ascii_lowercase, applied character by character. -/
def to_ascii_lowercase (s : Str) : Str := s.map lower_ascii_char

/-- Does `s` start with `pat`?  (Helper for the substring test below.) -/
def str_starts_with : Str → Str → Bool
  | _, [] => true
  | [], _ :: _ => false
  | c :: cs, p :: ps => c == p && str_starts_with cs ps

/-- Rust str::contains with a string pattern: `pat` occurs as a contiguous
substring of `s`. -/
def str_contains : Str → Str → Bool
  | [], pat => pat.isEmpty
  | c :: cs, pat => str_starts_with (c :: cs) pat || str_contains cs pat

/-- Rust Ord::cmp on strings: lexicographic comparison of the character
sequences (shorter string first when one is a proper initial segment). -/
def str_cmp : Str → Str → Ordering
  | [], [] => .eq
  | [], _ :: _ => .lt
  | _ :: _, [] => .gt
  | a :: as, b :: bs =>
    match compare a.toNat b.toNat with
    | .eq => str_cmp as bs
    | o => o

/-- Modelled from the spec: the LibraryEntry enum of src/library.rs (absent
from the provided sources).  Spec section 3 together with the pattern matches
in src/gui.rs gives its two variants: a Category carries id, name, parent and
an ordered child sequence; a Sound carries id, name, parent, an unsigned byte
size and a signed duration. -/
inductive LibraryEntry where
  | Category (id : Nat) (name : Str) (parent : Nat) (children : List LibraryEntry)
  | Sound (id : Nat) (name : Str) (parent : Nat) (bytes : Nat) (duration : Int)

/-- Accessor id(): the id of either variant. -/
def LibraryEntry.id : LibraryEntry → Nat
  | .Category i _ _ _ => i
  | .Sound i _ _ _ _ => i

/-- Accessor name(): the name of either variant. -/
def LibraryEntry.name : LibraryEntry → Str
  | .Category _ n _ _ => n
  | .Sound _ n _ _ _ => n

/-- Accessor parent(): the parent id of either variant. -/
def LibraryEntry.parent : LibraryEntry → Nat
  | .Category _ _ p _ => p
  | .Sound _ _ p _ _ => p

/-- Modelled from the spec: bytes() is the byte size of a Sound; spec section 4.1
says a Category returns a defined default, 0. -/
def LibraryEntry.bytes : LibraryEntry → Nat
  | .Category _ _ _ _ => 0
  | .Sound _ _ _ b _ => b

/-- Modelled from the spec: duration() is the duration of a Sound; spec section 4.1
says a Category returns a defined default, 0. -/
def LibraryEntry.duration : LibraryEntry → Int
  | .Category _ _ _ _ => 0
  | .Sound _ _ _ _ d => d

/-- Accessor is_category(): discriminates the variant. -/
def LibraryEntry.is_category : LibraryEntry → Bool
  | .Category _ _ _ _ => true
  | .Sound _ _ _ _ _ => false

/-- The child list of a Category; a Sound has none. -/
def LibraryEntry.children_of : LibraryEntry → List LibraryEntry
  | .Category _ _ _ cs => cs
  | .Sound _ _ _ _ _ => []

/-- The test matches!(c, LibraryEntry::Sound) used in remove_empty_category_nodes. -/
def matches_sound : LibraryEntry → Bool
  | .Category _ _ _ _ => false
  | .Sound _ _ _ _ _ => true

mutual
/-- Structural equality test on entries (the derived PartialEq of Rust). -/
def beq_entry : LibraryEntry → LibraryEntry → Bool
  | .Category i n p cs, .Category i' n' p' cs' =>
    i == i' && n == n' && p == p' && beq_children cs cs'
  | .Sound i n p b d, .Sound i' n' p' b' d' =>
    i == i' && n == n' && p == p' && b == b' && d == d'
  | _, _ => false
/-- Structural equality test on child lists. -/
def beq_children : List LibraryEntry → List LibraryEntry → Bool
  | [], [] => true
  | c :: cs, d :: ds => beq_entry c d && beq_children cs ds
  | _, _ => false
end

mutual
theorem beq_entry_iff : ∀ a b : LibraryEntry, beq_entry a b = true ↔ a = b
  | .Category _ _ _ cs, .Category _ _ _ cs' => by
    simp [beq_entry, beq_children_iff cs cs', and_assoc]
  | .Category _ _ _ _, .Sound _ _ _ _ _ => by simp [beq_entry]
  | .Sound _ _ _ _ _, .Category _ _ _ _ => by simp [beq_entry]
  | .Sound _ _ _ _ _, .Sound _ _ _ _ _ => by simp [beq_entry, and_assoc]
theorem beq_children_iff : ∀ a b : List LibraryEntry, beq_children a b = true ↔ a = b
  | [], [] => by simp [beq_children]
  | [], _ :: _ => by simp [beq_children]
  | _ :: _, [] => by simp [beq_children]
  | c :: cs, d :: ds => by
    simp [beq_children, beq_entry_iff c d, beq_children_iff cs ds]
end

instance : DecidableEq LibraryEntry := fun a b =>
  decidable_of_iff (beq_entry a b = true) (beq_entry_iff a b)

mutual
/-- All Sound leaves of an entry, in left-to-right order. -/
def LibraryEntry.sounds : LibraryEntry → List LibraryEntry
  | .Category _ _ _ cs => sounds_of_children cs
  | .Sound i n p b d => [.Sound i n p b d]
/-- All Sound leaves of a child list, in left-to-right order. -/
def sounds_of_children : List LibraryEntry → List LibraryEntry
  | [] => []
  | c :: cs => c.sounds ++ sounds_of_children cs
end

mutual
/-- src/gui.rs filter_sounds (lines 388-422): a Sound is kept iff its
ASCII-lowercased name contains the filter string; a Category is rebuilt from
the concatenation of the filtered results of its children and kept iff that
concatenation is non-empty.  Returns a vector holding the single surviving
root or nothing. -/
def filter_sounds (tree : LibraryEntry) (filter_str : Str) : List LibraryEntry :=
  match tree with
  | .Sound i n p b d =>
    if str_contains (to_ascii_lowercase n) filter_str
    then [.Sound i n p b d]
    else []
  | .Category i n p cs =>
    let filtered_sounds := filter_sounds_children cs filter_str
    if !filtered_sounds.isEmpty
    then [.Category i n p filtered_sounds]
    else []
/-- The flat_map over the child list inside filter_sounds. -/
def filter_sounds_children : List LibraryEntry → Str → List LibraryEntry
  | [], _ => []
  | c :: cs, filter_str =>
    filter_sounds c filter_str ++ filter_sounds_children cs filter_str
end

/-- The retain predicate inside src/gui.rs remove_empty_category_nodes
(lines 368-378).  Note that `container_parent` is the parent field of the
node whose child list is being filtered: the inner pattern of the Rust
closure rebinds `children` but not `parent`, so `*parent == 1` refers to the
parent field of the enclosing Category. -/
def keep_child (container_parent : Nat) (child : LibraryEntry) : Bool :=
  match child with
  | .Category _ _ _ ccs =>
    !ccs.isEmpty || ccs.any matches_sound || container_parent == 1
  | .Sound _ _ _ _ _ => true

mutual
/-- src/gui.rs remove_empty_category_nodes (lines 361-386): for a Category,
first retain only the children passing keep_child, then prune each retained
child recursively; a Sound is left untouched. -/
def remove_empty_category_nodes : LibraryEntry → LibraryEntry
  | .Sound i n p b d => .Sound i n p b d
  | .Category i n p cs => .Category i n p (retain_and_prune p cs)
/-- The retain-then-recurse of the source over a child list, fused into a single
pass: each child is tested with keep_child against the original child (as
retain does, before any recursion) and, when kept, pruned recursively.  The
characterisation retain_and_prune_eq below states the equality with the
unfused filter-then-map form. -/
def retain_and_prune (container_parent : Nat) : List LibraryEntry → List LibraryEntry
  | [] => []
  | c :: cs =>
    if keep_child container_parent c
    then remove_empty_category_nodes c :: retain_and_prune container_parent cs
    else retain_and_prune container_parent cs
end

/-- Wrap-around addition on u128 values. -/
def u128_add (a b : Nat) : Nat := (a + b) % 2 ^ 128

/-- The Rust cast `as u128` applied to an i64 value (sign extension then
reinterpretation, i.e. reduction modulo 2^128). -/
def u128_of_i64 (d : Int) : Nat := (d % (2 : Int) ^ 128).toNat

/-- Wrap-around addition on i64 values. -/
def i64_add (a b : Int) : Int := (a + b + 2 ^ 63) % 2 ^ 64 - 2 ^ 63

/-- The reduce closure |a, b| (a.0 + b.0, a.1 + b.1, a.2 + b.2) of
stats_list::recursive, at the machine types (u128, u128, i64). -/
def stats_add (a b : Nat × Nat × Int) : Nat × Nat × Int :=
  (u128_add a.1 b.1, u128_add a.2.1 b.2.1, i64_add a.2.2 b.2.2)

mutual
/-- src/gui.rs stats_list::recursive (lines 197-208): a Sound contributes
(bytes as u128, duration as u128, 1); a Category contributes the reduce of
the triples of its children under pairwise addition, or (0, 0, 1) when it has no
children (Iterator::reduce returns None on an empty iterator and
unwrap_or supplies (0, 0, 1)). -/
def stats_recursive : LibraryEntry → Nat × Nat × Int
  | .Sound _ _ _ b d => (b, u128_of_i64 d, 1)
  | .Category _ _ _ cs =>
    match stats_children cs with
    | [] => (0, 0, 1)
    | t :: ts => ts.foldl stats_add t
/-- The mapped list children.iter().map(recursive) inside stats_list. -/
def stats_children : List LibraryEntry → List (Nat × Nat × Int)
  | [] => []
  | c :: cs => stats_recursive c :: stats_children cs
end

/-- src/gui.rs Sorting (lines 40-52): the sort-mode enumeration. -/
inductive Sorting where
  | Default
  | NameInc
  | NameDec
  | LengthInc
  | LengthDec
  | IdInc
  | IdDec
  | SizeInc
  | SizeDec
deriving DecidableEq

/-- The sorting closure of src/gui.rs library_list::recursive (lines
128-140), selected by the current sort mode.  IdInc compares b against a and
IdDec compares a against b — the source comments that the in-game GD id
ordering is reversed. -/
def sorting_cmp (mode : Sorting) (a b : LibraryEntry) : Ordering :=
  match mode with
  | .Default => .eq
  | .NameInc => str_cmp a.name b.name
  | .NameDec => str_cmp b.name a.name
  | .LengthInc => compare a.duration b.duration
  | .LengthDec => compare b.duration a.duration
  | .IdInc => compare b.id a.id
  | .IdDec => compare a.id b.id
  | .SizeInc => compare a.bytes b.bytes
  | .SizeDec => compare b.bytes a.bytes

/-- Insert `a` into `l`, placing it before the first element comparing
greater than it; the building block of the stable sort below. -/
def insert_by (cmp : α → α → Ordering) (a : α) : List α → List α
  | [] => [a]
  | b :: bs => if cmp b a = .gt then a :: b :: bs else b :: insert_by cmp a bs

/-- Rust slice::sort_by: a stable sort by the given comparator.  Modelled as
a left-to-right stable insertion sort, which realises the stable-sort
contract of sort_by (equal-comparing elements keep their relative order). -/
def sort_by (cmp : α → α → Ordering) (l : List α) : List α :=
  l.foldl (fun acc a => insert_by cmp a acc) []

/-- The rendering order of the immediate children of a Category node in
src/gui.rs library_list::recursive (lines 121-171): children are partitioned
into non-categories ("sounds") and categories, both groups are sorted with
the sorting closure, and then — for the root node (parent == 0) — only the
categories are walked, while for any other node the categories are listed
before the sounds.  A Sound node lists no children. -/
def library_children_order (mode : Sorting) (entry : LibraryEntry) : List LibraryEntry :=
  match entry with
  | .Sound _ _ _ _ _ => []
  | .Category _ _ p cs =>
    let sounds := cs.filter (fun x => !x.is_category)
    let categories := cs.filter (fun x => x.is_category)
    if p == 0
    then sort_by (sorting_cmp mode) categories
    else sort_by (sorting_cmp mode) categories ++ sort_by (sorting_cmp mode) sounds

mutual
/-- src/gui.rs favourites_list::recursive (lines 173-193): every node is
visited; a Category only forwards the traversal to its children; a Sound
yields a button iff has_favourite(id) holds and its ASCII-lowercased name
contains the ASCII-lowercased search query.  `fav` stands for the favourites
membership test has_favourite of src/favourites.rs (absent from the provided
sources; per spec section 4.8 it is membership in the persisted Favorites
Set, passed here as a predicate). -/
def favourites_shown (fav : Nat → Bool) (query : Str) : LibraryEntry → List LibraryEntry
  | .Category _ _ _ cs => favourites_shown_children fav query cs
  | .Sound i n p b d =>
    if fav i && str_contains (to_ascii_lowercase n) (to_ascii_lowercase query)
    then [.Sound i n p b d]
    else []
/-- The child-list traversal of favourites_list::recursive. -/
def favourites_shown_children (fav : Nat → Bool) (query : Str) :
    List LibraryEntry → List LibraryEntry
  | [] => []
  | c :: cs => favourites_shown fav query c ++ favourites_shown_children fav query cs
end

mutual
/-- Relation `sub_entry a b` holds when `a` is a structurally valid sub-tree of `b`:
the two nodes are the same variant with identical id, name and parent fields
(and, for Sounds, identical bytes and duration), and the child list of a Category
embeds order-preservingly into the child list of the original. -/
def sub_entry : LibraryEntry → LibraryEntry → Bool
  | .Category i n p cs, .Category i' n' p' cs' =>
    i == i' && n == n' && p == p' && sub_forest cs cs'
  | .Sound i n p b d, .Sound i' n' p' b' d' =>
    i == i' && n == n' && p == p' && b == b' && d == d'
  | _, _ => false
/-- Relation `sub_forest l l'` holds when `l` is obtained from `l'` by deleting some
elements and replacing each survivor by a sub-tree of it, keeping order. -/
def sub_forest : List LibraryEntry → List LibraryEntry → Bool
  | [], _ => true
  | _ :: _, [] => false
  | a :: as, b :: bs => (sub_entry a b && sub_forest as bs) || sub_forest (a :: as) bs
end

theorem str_contains_nil_pat : ∀ s : Str, str_contains s [] = true
  | [] => rfl
  | _ :: _ => by simp [str_contains, str_starts_with]

theorem sounds_of_children_append (l1 l2 : List LibraryEntry) :
    sounds_of_children (l1 ++ l2) = sounds_of_children l1 ++ sounds_of_children l2 := by
  induction l1 with
  | nil => simp [sounds_of_children]
  | cons c cs ih => simp [sounds_of_children, ih]

/-- The predicate a Sound must pass to survive filter_sounds. -/
def sound_matches (q : Str) (s : LibraryEntry) : Bool :=
  str_contains (to_ascii_lowercase s.name) q

mutual
/-- The Sound leaves surviving filter_sounds are exactly the Sound leaves of
the input whose lowercased name contains the filter string, in order. -/
theorem sounds_filter_entry : ∀ (t : LibraryEntry) (q : Str),
    sounds_of_children (filter_sounds t q) = t.sounds.filter (sound_matches q)
  | .Sound i n p b d, q => by
    by_cases h : str_contains (to_ascii_lowercase n) q
    · simp [filter_sounds, h, sounds_of_children, LibraryEntry.sounds,
        List.filter, sound_matches, LibraryEntry.name]
    · simp [filter_sounds, h, sounds_of_children, LibraryEntry.sounds,
        List.filter, sound_matches, LibraryEntry.name]
  | .Category i n p cs, q => by
    have hl := sounds_filter_children cs q
    by_cases h : (filter_sounds_children cs q).isEmpty
    · rw [List.isEmpty_iff] at h
      simp [filter_sounds, h, sounds_of_children, LibraryEntry.sounds, ← hl, h]
    · have h' : (filter_sounds_children cs q).isEmpty = false := by
        simpa using h
      simp [filter_sounds, h', sounds_of_children, LibraryEntry.sounds, ← hl]
theorem sounds_filter_children : ∀ (cs : List LibraryEntry) (q : Str),
    sounds_of_children (filter_sounds_children cs q) =
      (sounds_of_children cs).filter (sound_matches q)
  | [], _ => rfl
  | c :: cs, q => by
    simp [filter_sounds_children, sounds_of_children_append, sounds_of_children,
      List.filter_append, sounds_filter_entry c q, sounds_filter_children cs q]
end

theorem sounds_ne_nil_of_mem {r : LibraryEntry} :
    ∀ {l : List LibraryEntry}, r ∈ l → r.sounds ≠ [] → sounds_of_children l ≠ [] := by
  intro l hm hs
  induction l with
  | nil => cases hm
  | cons c cs ih =>
    rcases List.mem_cons.1 hm with h | h
    · subst h
      simp [sounds_of_children, List.append_eq_nil, hs]
    · simp [sounds_of_children, List.append_eq_nil]
      intro _ h2
      exact ih h h2

mutual
/-- Every entry produced by filter_sounds contains at least one Sound leaf. -/
theorem filter_sounds_mem_has_sound : ∀ (t : LibraryEntry) (q : Str) (r : LibraryEntry),
    r ∈ filter_sounds t q → r.sounds ≠ []
  | .Sound i n p b d, q, r, hr => by
    revert hr
    by_cases h : str_contains (to_ascii_lowercase n) q
    · simp [filter_sounds, h]
      rintro rfl
      simp [LibraryEntry.sounds]
    · simp [filter_sounds, h]
  | .Category i n p cs, q, r, hr => by
    revert hr
    by_cases h : (filter_sounds_children cs q).isEmpty
    · simp [filter_sounds, h]
    · have h' : (filter_sounds_children cs q).isEmpty = false := by simpa using h
      simp [filter_sounds, h']
      rintro rfl
      simp [LibraryEntry.sounds]
      rw [List.isEmpty_eq_false_iff_exists_mem] at h'
      rcases h' with ⟨c0, hc0⟩
      exact sounds_ne_nil_of_mem hc0 (filter_children_mem_has_sound cs q c0 hc0)
theorem filter_children_mem_has_sound : ∀ (cs : List LibraryEntry) (q : Str) (r : LibraryEntry),
    r ∈ filter_sounds_children cs q → r.sounds ≠ []
  | [], _, _, hr => by cases hr
  | c :: cs, q, r, hr => by
    rcases List.mem_append.1 hr with h | h
    · exact filter_sounds_mem_has_sound c q r h
    · exact filter_children_mem_has_sound cs q r h
end

/-- Claim C6: for every query string q (passed lowercased, as the library
view does) and every Entry tree t, a Sound leaf appears in the result of
filtering t by q if and only if it is a Sound leaf of t whose name contains
q as a case-insensitive substring. -/
theorem filter_membership_iff (t : LibraryEntry) (q : Str)
    (hq : to_ascii_lowercase q = q) (s : LibraryEntry) :
    s ∈ sounds_of_children (filter_sounds t q) ↔
      s ∈ t.sounds ∧ str_contains (to_ascii_lowercase s.name) (to_ascii_lowercase q) = true := by
  rw [hq, sounds_filter_entry, List.mem_filter, sound_matches]

theorem filter_membership_iff_witness :
    to_ascii_lowercase ['j', 'u', 'm', 'p'] = ['j', 'u', 'm', 'p'] ∧
      (LibraryEntry.Sound 100 ['j', 'u', 'm', 'p'] 10 500 200 ∈
          sounds_of_children (filter_sounds
            (.Category 0 ['r'] 0
              [.Category 10 ['c'] 0
                [.Sound 100 ['j', 'u', 'm', 'p'] 10 500 200,
                 .Sound 101 ['l', 'a', 'n', 'd'] 10 300 150]])
            ['j', 'u', 'm', 'p']) ↔
        LibraryEntry.Sound 100 ['j', 'u', 'm', 'p'] 10 500 200 ∈
            (LibraryEntry.Category 0 ['r'] 0
              [.Category 10 ['c'] 0
                [.Sound 100 ['j', 'u', 'm', 'p'] 10 500 200,
                 .Sound 101 ['l', 'a', 'n', 'd'] 10 300 150]]).sounds ∧
          str_contains
            (to_ascii_lowercase (LibraryEntry.Sound 100 ['j', 'u', 'm', 'p'] 10 500 200).name)
            (to_ascii_lowercase ['j', 'u', 'm', 'p']) = true) :=
  ⟨by decide, filter_membership_iff _ _ (by decide) _⟩

/-- Claim C7: filtering with the empty query retains every Sound leaf of the
tree, via the same algorithm with no special case: the surviving Sound
leaves are exactly those of the input, in order. -/
theorem filter_empty_query_keeps_sounds (t : LibraryEntry) :
    sounds_of_children (filter_sounds t []) = t.sounds := by
  rw [sounds_filter_entry]
  have : ∀ s : LibraryEntry, sound_matches [] s = true := by
    intro s
    simp [sound_matches, str_contains_nil_pat]
  simp [this]

/-- Claim C10: filter_sounds returns at most one entry, and returns none
exactly when no Sound leaf of the input matches the filter string; hence
indexing element 0 after a non-emptiness check is always in bounds. -/
theorem filter_sounds_at_most_one (t : LibraryEntry) (q : Str) :
    (filter_sounds t q).length ≤ 1 ∧
      (filter_sounds t q = [] ↔ t.sounds.filter (sound_matches q) = []) := by
  refine ⟨?_, ?_, ?_⟩
  · cases t <;> simp only [filter_sounds] <;> split <;> simp
  · intro h
    rw [← sounds_filter_entry, h]
    rfl
  · intro h
    have hs := sounds_filter_entry t q
    rw [h] at hs
    cases hfe : filter_sounds t q with
    | nil => rfl
    | cons r rest =>
      exfalso
      refine sounds_ne_nil_of_mem (l := r :: rest) (List.mem_cons_self r rest) ?_ ?_
      · exact filter_sounds_mem_has_sound t q r (by rw [hfe]; exact List.mem_cons_self r rest)
      · rw [← hfe]
        exact hs

theorem sub_forest_weaken {as : List LibraryEntry} {b : LibraryEntry} {bs : List LibraryEntry}
    (h : sub_forest as bs = true) : sub_forest as (b :: bs) = true := by
  cases as with
  | nil => rfl
  | cons a as =>
    simp only [sub_forest, Bool.or_eq_true]
    exact Or.inr h

theorem filter_sounds_nil_or_singleton (t : LibraryEntry) (q : Str) :
    filter_sounds t q = [] ∨ ∃ r, filter_sounds t q = [r] := by
  cases t <;> simp only [filter_sounds] <;> split
  · exact Or.inr ⟨_, rfl⟩
  · exact Or.inl rfl
  · exact Or.inr ⟨_, rfl⟩
  · exact Or.inl rfl

mutual
/-- Every entry produced by filter_sounds is a structurally valid sub-tree
of the input: same id, name and parent at every kept node, children embedded
in order. -/
theorem filter_sub_entry : ∀ (t : LibraryEntry) (q : Str) (r : LibraryEntry),
    r ∈ filter_sounds t q → sub_entry r t = true
  | .Sound i n p b d, q, r, hr => by
    revert hr
    by_cases h : str_contains (to_ascii_lowercase n) q
    · simp [filter_sounds, h]
      rintro rfl
      simp [sub_entry]
    · simp [filter_sounds, h]
  | .Category i n p cs, q, r, hr => by
    revert hr
    by_cases h : (filter_sounds_children cs q).isEmpty
    · simp [filter_sounds, h]
    · have h' : (filter_sounds_children cs q).isEmpty = false := by simpa using h
      simp [filter_sounds, h']
      rintro rfl
      simp [sub_entry, filter_sub_forest cs q]
theorem filter_sub_forest : ∀ (cs : List LibraryEntry) (q : Str),
    sub_forest (filter_sounds_children cs q) cs = true
  | [], _ => rfl
  | c :: cs, q => by
    have hrest := filter_sub_forest cs q
    rcases filter_sounds_nil_or_singleton c q with h | ⟨r, h⟩
    · simp only [filter_sounds_children, h, List.nil_append]
      exact sub_forest_weaken hrest
    · have hsub : sub_entry r c = true :=
        filter_sub_entry c q r (by rw [h]; exact List.mem_cons_self r [])
      simp only [filter_sounds_children, h, List.cons_append, List.nil_append,
        sub_forest, Bool.or_eq_true, Bool.and_eq_true]
      exact Or.inl ⟨hsub, hrest⟩
end

/-- Claim C8: the tree produced by filter_sounds is a structurally valid
sub-tree of the original: every kept node carries the same id, name and
parent field as its counterpart in the input and no node is re-parented.
(The result being newly constructed, with the input never mutated, is
automatic in this pure value model: filter_sounds is a function of its
input.) -/
theorem filter_result_is_sub_tree (t : LibraryEntry) (q : Str) (r : LibraryEntry)
    (hr : r ∈ filter_sounds t q) : sub_entry r t = true :=
  filter_sub_entry t q r hr

theorem filter_result_is_sub_tree_witness :
    LibraryEntry.Category 0 ['r'] 0
        [.Category 10 ['c'] 0 [.Sound 100 ['j', 'u', 'm', 'p'] 10 500 200]] ∈
      filter_sounds
        (.Category 0 ['r'] 0
          [.Category 10 ['c'] 0
            [.Sound 100 ['j', 'u', 'm', 'p'] 10 500 200,
             .Sound 101 ['l', 'a', 'n', 'd'] 10 300 150]])
        ['j', 'u'] ∧
      sub_entry
        (.Category 0 ['r'] 0
          [.Category 10 ['c'] 0 [.Sound 100 ['j', 'u', 'm', 'p'] 10 500 200]])
        (.Category 0 ['r'] 0
          [.Category 10 ['c'] 0
            [.Sound 100 ['j', 'u', 'm', 'p'] 10 500 200,
             .Sound 101 ['l', 'a', 'n', 'd'] 10 300 150]]) = true :=
  ⟨by decide,
    filter_result_is_sub_tree
      (.Category 0 ['r'] 0
        [.Category 10 ['c'] 0
          [.Sound 100 ['j', 'u', 'm', 'p'] 10 500 200,
           .Sound 101 ['l', 'a', 'n', 'd'] 10 300 150]])
      ['j', 'u']
      (.Category 0 ['r'] 0
        [.Category 10 ['c'] 0 [.Sound 100 ['j', 'u', 'm', 'p'] 10 500 200]])
      (by decide)⟩

/-- The fused retain-then-recurse pass equals the two-stage form of the source:
retain with keep_child (tested against the original children), then prune
each retained child. -/
theorem retain_and_prune_eq (container_parent : Nat) (cs : List LibraryEntry) :
    retain_and_prune container_parent cs =
      (cs.filter (keep_child container_parent)).map remove_empty_category_nodes := by
  induction cs with
  | nil => rfl
  | cons c cs ih =>
    by_cases h : keep_child container_parent c
    · simp [retain_and_prune, h, List.filter_cons, ih]
    · have h' : keep_child container_parent c = false := by simpa using h
      simp [retain_and_prune, h', List.filter_cons, ih]

/-- The keep_child predicate, restated through the observable accessors: a child survives
the retain pass iff it is a Sound, or has a non-empty child list, or the
parent field of the containing Category equals 1.  (The redundant any-Sound
disjunct is subsumed: a child list containing a Sound is non-empty.) -/
theorem keep_child_iff (container_parent : Nat) (c : LibraryEntry) :
    keep_child container_parent c =
      (matches_sound c || !c.children_of.isEmpty || container_parent == 1) := by
  cases c with
  | Sound i n p b d => simp [keep_child, matches_sound]
  | Category i n p ccs =>
    cases ccs with
    | nil => simp [keep_child, matches_sound, LibraryEntry.children_of]
    | cons c' ccs' => simp [keep_child, matches_sound, LibraryEntry.children_of]

/-- Claim C3 counterexample.  Left conjunct: a Category child whose own
parent field equals 1 is removed anyway, because the exemption reads the
parent field of the container (here 0), not that of the child.  Right conjunct: an
empty Category child whose own parent field is 3, not 1, is retained anyway,
because the parent field of its container is 1. -/
theorem prune_exemption_cex :
    remove_empty_category_nodes (.Category 2 ['x'] 0 [.Category 9 ['y'] 1 []]) =
        .Category 2 ['x'] 0 [] ∧
      remove_empty_category_nodes (.Category 3 ['x'] 1 [.Category 9 ['y'] 3 []]) =
        .Category 3 ['x'] 1 [.Category 9 ['y'] 3 []] := by
  decide

/-- Claim C3, amended: during prune-empty-categories each child of a
Category node is removed from the child list iff it is a Category with an
empty child list and the parent field of the containing node (not the
own) differs from 1; retained children are pruned recursively, and the node
pruning is invoked on is itself never removed — it is rebuilt with its id,
name and parent unchanged. -/
theorem prune_children_characterised (i : Nat) (n : Str) (p : Nat)
    (cs : List LibraryEntry) :
    remove_empty_category_nodes (.Category i n p cs) =
      .Category i n p
        ((cs.filter fun c => matches_sound c || !c.children_of.isEmpty || p == 1).map
          remove_empty_category_nodes) := by
  simp only [remove_empty_category_nodes, retain_and_prune_eq]
  have hf : cs.filter (keep_child p) =
      cs.filter (fun c => matches_sound c || !c.children_of.isEmpty || p == 1) :=
    List.filter_congr (fun c _ => keep_child_iff p c)
  rw [hf]

mutual
/-- No Category anywhere in the tree has a child that the retain pass of
remove_empty_category_nodes would drop. -/
def no_prunable : LibraryEntry → Bool
  | .Sound _ _ _ _ _ => true
  | .Category _ _ p cs => cs.all (keep_child p) && no_prunable_children cs
/-- Conjunction of no_prunable over a child list. -/
def no_prunable_children : List LibraryEntry → Bool
  | [] => true
  | c :: cs => no_prunable c && no_prunable_children cs
end

mutual
theorem prune_id_entry : ∀ t : LibraryEntry, no_prunable t = true →
    remove_empty_category_nodes t = t
  | .Sound _ _ _ _ _, _ => rfl
  | .Category i n p cs, h => by
    simp only [no_prunable, Bool.and_eq_true] at h
    simp only [remove_empty_category_nodes]
    rw [prune_id_children p cs h.1 h.2]
theorem prune_id_children : ∀ (p : Nat) (cs : List LibraryEntry),
    cs.all (keep_child p) = true → no_prunable_children cs = true →
    retain_and_prune p cs = cs
  | _, [], _, _ => rfl
  | p, c :: cs, h1, h2 => by
    simp only [List.all_cons, Bool.and_eq_true] at h1
    simp only [no_prunable_children, Bool.and_eq_true] at h2
    simp only [retain_and_prune, h1.1, if_true]
    rw [prune_id_entry c h2.1, prune_id_children p cs h1.2 h2.2]
end

/-- Claim C2 counterexample: pruning is not idempotent.  In
root(5){ A(6){ B(7){} } } the first pass keeps A (its child list is
non-empty when tested) and then removes the empty B inside it; the second
pass finds A empty and removes it too. -/
theorem prune_not_idempotent_cex :
    remove_empty_category_nodes (remove_empty_category_nodes
        (.Category 5 ['r'] 0 [.Category 6 ['a'] 5 [.Category 7 ['b'] 6 []]])) ≠
      remove_empty_category_nodes
        (.Category 5 ['r'] 0 [.Category 6 ['a'] 5 [.Category 7 ['b'] 6 []]]) := by
  decide

/-- Claim C2, amended: applying prune-empty-categories twice yields the same
tree as applying it once whenever the once-pruned tree contains no remaining
prunable child (no Category child with an empty child list outside the
parent-equals-1 exemption); in general the second application can remove
categories that the first pass emptied, as the counterexample shows. -/
theorem prune_twice_eq_once_of_stable (t : LibraryEntry)
    (h : no_prunable (remove_empty_category_nodes t) = true) :
    remove_empty_category_nodes (remove_empty_category_nodes t) =
      remove_empty_category_nodes t :=
  prune_id_entry _ h

theorem prune_twice_eq_once_of_stable_witness :
    no_prunable (remove_empty_category_nodes
        (.Category 5 ['r'] 0 [.Category 6 ['a'] 5 [.Sound 9 ['s'] 6 1 1]])) = true ∧
      remove_empty_category_nodes (remove_empty_category_nodes
          (.Category 5 ['r'] 0 [.Category 6 ['a'] 5 [.Sound 9 ['s'] 6 1 1]])) =
        remove_empty_category_nodes
          (.Category 5 ['r'] 0 [.Category 6 ['a'] 5 [.Sound 9 ['s'] 6 1 1]]) :=
  ⟨by decide,
    prune_twice_eq_once_of_stable
      (.Category 5 ['r'] 0 [.Category 6 ['a'] 5 [.Sound 9 ['s'] 6 1 1]])
      (by decide)⟩

set_option maxRecDepth 8000 in
/-- Claim C1 counterexample: on the scenario tree of the spec the aggregate-stats
recursion yields a total count of 2, not 3 — a non-empty Category
contributes only the reduce of its children's triples and adds nothing for
itself (only an empty Category contributes a count of 1 via unwrap_or). -/
theorem stats_scenario_cex :
    stats_recursive
        (.Category 0 ['r', 'o', 'o', 't'] 0
          [.Category 10 ['c', 'a', 't', 'A'] 0
            [.Sound 100 ['j', 'u', 'm', 'p'] 10 500 200,
             .Sound 101 ['l', 'a', 'n', 'd'] 10 300 150]]) ≠
      ((800 : Nat), (350 : Nat), (3 : Int)) := by
  decide

set_option maxRecDepth 8000 in
/-- Claim C1, amended: on the scenario tree the aggregate-stats computation
returns total bytes 800, total duration 350 and total count 2 (the two
sounds; the non-empty CategoryA and the root contribute nothing to the
count, since a Category with children reduces to the sum of their triples). -/
theorem stats_scenario_amended :
    stats_recursive
        (.Category 0 ['r', 'o', 'o', 't'] 0
          [.Category 10 ['c', 'a', 't', 'A'] 0
            [.Sound 100 ['j', 'u', 'm', 'p'] 10 500 200,
             .Sound 101 ['l', 'a', 'n', 'd'] 10 300 150]]) =
      ((800 : Nat), (350 : Nat), (2 : Int)) := by
  decide

mutual
theorem favourites_shown_eq_entry : ∀ (fav : Nat → Bool) (q : Str) (t : LibraryEntry),
    favourites_shown fav q t =
      t.sounds.filter
        (fun s => fav s.id && str_contains (to_ascii_lowercase s.name) (to_ascii_lowercase q))
  | fav, q, .Sound i n p b d => by
    by_cases h : (fav i && str_contains (to_ascii_lowercase n) (to_ascii_lowercase q)) = true
    · simp [favourites_shown, h, LibraryEntry.sounds, List.filter,
        LibraryEntry.id, LibraryEntry.name]
    · have h' : (fav i && str_contains (to_ascii_lowercase n) (to_ascii_lowercase q)) = false := by
        simpa using h
      simp [favourites_shown, h', LibraryEntry.sounds, List.filter,
        LibraryEntry.id, LibraryEntry.name]
  | fav, q, .Category i n p cs => by
    simp only [favourites_shown, LibraryEntry.sounds]
    exact favourites_shown_eq_children fav q cs
theorem favourites_shown_eq_children : ∀ (fav : Nat → Bool) (q : Str) (cs : List LibraryEntry),
    favourites_shown_children fav q cs =
      (sounds_of_children cs).filter
        (fun s => fav s.id && str_contains (to_ascii_lowercase s.name) (to_ascii_lowercase q))
  | _, _, [] => rfl
  | fav, q, c :: cs => by
    simp only [favourites_shown_children, sounds_of_children, List.filter_append]
    rw [favourites_shown_eq_entry fav q c, favourites_shown_eq_children fav q cs]
end

/-- Claim C9: the favourites view traversal visits every node — its output
is exactly the list of all Sound leaves of the tree (wherever they sit) that
are favourites and whose lowercased name contains the lowercased search
query, in tree order.  Category nodes contribute no output of their own and
are never tested against favourite membership, and no branch is pruned for
emptiness: the output is independent of the category structure above each
Sound. -/
theorem favourites_view_characterised (fav : Nat → Bool) (q : Str) (t : LibraryEntry) :
    favourites_shown fav q t =
      t.sounds.filter
        (fun s => fav s.id && str_contains (to_ascii_lowercase s.name) (to_ascii_lowercase q)) :=
  favourites_shown_eq_entry fav q t

theorem insert_by_eq_append {α : Type} {cmp : α → α → Ordering} {a : α} :
    ∀ {l : List α}, (∀ b ∈ l, cmp b a ≠ .gt) → insert_by cmp a l = l ++ [a]
  | [], _ => rfl
  | b :: bs, h => by
    have hb : ¬ cmp b a = .gt := h b (List.mem_cons_self b bs)
    rw [insert_by, if_neg hb,
      insert_by_eq_append (fun x hx => h x (List.mem_cons_of_mem b hx))]
    rfl

theorem sort_by_default_foldl (l acc : List LibraryEntry) :
    List.foldl (fun acc a => insert_by (sorting_cmp .Default) a acc) acc l = acc ++ l := by
  induction l generalizing acc with
  | nil => simp
  | cons x l ih =>
    rw [List.foldl_cons, ih, insert_by_eq_append (fun b _ => by simp [sorting_cmp])]
    simp

/-- In Default mode the comparator reports every pair equal, so the stable
sort leaves any list exactly as it came in. -/
theorem sort_by_default_id (l : List LibraryEntry) :
    sort_by (sorting_cmp .Default) l = l := by
  simpa using sort_by_default_foldl l []

theorem insert_by_perm {α : Type} (cmp : α → α → Ordering) (a : α) :
    ∀ l : List α, (insert_by cmp a l).Perm (a :: l)
  | [] => List.Perm.refl _
  | b :: bs => by
    by_cases h : cmp b a = .gt
    · rw [insert_by, if_pos h]
    · rw [insert_by, if_neg h]
      exact ((insert_by_perm cmp a bs).cons b).trans (List.Perm.swap a b bs)

theorem sort_by_foldl_perm {α : Type} (cmp : α → α → Ordering) :
    ∀ (l acc : List α),
      (List.foldl (fun acc a => insert_by cmp a acc) acc l).Perm (acc ++ l)
  | [], acc => by simp
  | x :: l, acc => by
    rw [List.foldl_cons]
    refine (sort_by_foldl_perm cmp l (insert_by cmp x acc)).trans ?_
    refine (((insert_by_perm cmp x acc).append_right l).trans ?_)
    simpa using (@List.perm_middle _ x acc l).symm

/-- The stable sort is a permutation of its input. -/
theorem sort_by_perm {α : Type} (cmp : α → α → Ordering) (l : List α) :
    (sort_by cmp l).Perm l := by
  simpa using sort_by_foldl_perm cmp l []

/-- Claim C4: the sort comparator follows the mode table — Default compares
every pair equal (and the stable sort thus preserves insertion order);
NameInc/NameDec compare lexicographically by name, ascending/descending;
LengthInc/LengthDec by duration; SizeInc/SizeDec by bytes; while IdInc
orders by id descending and IdDec by id ascending, so ids [3, 1, 2] sort to
[3, 2, 1] under IdInc and to [1, 2, 3] under IdDec. -/
theorem sorting_comparator_table :
    (∀ l : List LibraryEntry, sort_by (sorting_cmp .Default) l = l)
    ∧ (∀ a b : LibraryEntry, sorting_cmp .Default a b = .eq)
    ∧ (∀ a b : LibraryEntry,
        sorting_cmp .NameInc a b = str_cmp a.name b.name
        ∧ sorting_cmp .NameDec a b = str_cmp b.name a.name)
    ∧ (∀ a b : LibraryEntry,
        (sorting_cmp .LengthInc a b = .lt ↔ a.duration < b.duration)
        ∧ (sorting_cmp .LengthDec a b = .lt ↔ b.duration < a.duration))
    ∧ (∀ a b : LibraryEntry,
        (sorting_cmp .SizeInc a b = .lt ↔ a.bytes < b.bytes)
        ∧ (sorting_cmp .SizeDec a b = .lt ↔ b.bytes < a.bytes))
    ∧ (∀ a b : LibraryEntry,
        (sorting_cmp .IdInc a b = .lt ↔ b.id < a.id)
        ∧ (sorting_cmp .IdDec a b = .lt ↔ a.id < b.id))
    ∧ sort_by (sorting_cmp .IdInc)
          [.Sound 3 ['x'] 0 0 0, .Sound 1 ['x'] 0 0 0, .Sound 2 ['x'] 0 0 0] =
        [.Sound 3 ['x'] 0 0 0, .Sound 2 ['x'] 0 0 0, .Sound 1 ['x'] 0 0 0]
    ∧ sort_by (sorting_cmp .IdDec)
          [.Sound 3 ['x'] 0 0 0, .Sound 1 ['x'] 0 0 0, .Sound 2 ['x'] 0 0 0] =
        [.Sound 1 ['x'] 0 0 0, .Sound 2 ['x'] 0 0 0, .Sound 3 ['x'] 0 0 0] := by
  refine ⟨sort_by_default_id, fun a b => rfl, fun a b => ⟨rfl, rfl⟩,
    fun a b => ⟨?_, ?_⟩, fun a b => ⟨?_, ?_⟩, fun a b => ⟨?_, ?_⟩, by decide, by decide⟩
  · simp [sorting_cmp, compare_lt_iff_lt]
  · simp [sorting_cmp, compare_lt_iff_lt]
  · simp [sorting_cmp, compare_lt_iff_lt]
  · simp [sorting_cmp, compare_lt_iff_lt]
  · simp [sorting_cmp, compare_lt_iff_lt]
  · simp [sorting_cmp, compare_lt_iff_lt]

/-- Claim C5 counterexample: at the root node (parent == 0) of the rendered
library view, a direct Sound child is not listed at all — only the sorted
category children are walked — so sound children are not "listed after the
categories" there. -/
theorem library_root_drops_sounds_cex :
    (LibraryEntry.Sound 7 ['s'] 1 4 5) ∈
        (LibraryEntry.Category 1 ['r'] 0
          [.Sound 7 ['s'] 1 4 5,
           .Category 2 ['c'] 1 [.Sound 8 ['t'] 2 1 1]]).children_of
    ∧ (LibraryEntry.Sound 7 ['s'] 1 4 5) ∉
        library_children_order .Default
          (.Category 1 ['r'] 0
            [.Sound 7 ['s'] 1 4 5,
             .Category 2 ['c'] 1 [.Sound 8 ['t'] 2 1 1]]) := by
  decide

/-- Claim C5, amended: at every Category node the children are partitioned
into category children and non-category children, each group is sorted with
the same comparator, and the sorted category children are listed first —
followed by the sorted sound children at every non-root node, while at the
root (parent == 0) the sound children are omitted from the listing. -/
theorem library_children_partitioned (mode : Sorting) (i : Nat) (n : Str) (p : Nat)
    (cs : List LibraryEntry) :
    ∃ catPart sndPart,
      catPart = sort_by (sorting_cmp mode) (cs.filter fun x => x.is_category)
      ∧ sndPart = sort_by (sorting_cmp mode) (cs.filter fun x => !x.is_category)
      ∧ catPart.Perm (cs.filter fun x => x.is_category)
      ∧ sndPart.Perm (cs.filter fun x => !x.is_category)
      ∧ (∀ e ∈ catPart, e.is_category = true)
      ∧ (∀ e ∈ sndPart, e.is_category = false)
      ∧ library_children_order mode (.Category i n p cs) =
          catPart ++ if p == 0 then [] else sndPart := by
  refine ⟨_, _, rfl, rfl, sort_by_perm _ _, sort_by_perm _ _, ?_, ?_, ?_⟩
  · intro e he
    have hm := (sort_by_perm (sorting_cmp mode) (cs.filter fun x => x.is_category)).mem_iff.1 he
    exact (List.mem_filter.1 hm).2
  · intro e he
    have hm := (sort_by_perm (sorting_cmp mode) (cs.filter fun x => !x.is_category)).mem_iff.1 he
    have h2 := (List.mem_filter.1 hm).2
    simpa using h2
  · by_cases hp : (p == 0) = true
    · simp [library_children_order, hp]
    · have hp' : (p == 0) = false := by simpa using hp
      simp [library_children_order, hp']
